import Mathlib

/- Verification of the SELECT query builder and response shaper in
   `src/piccolo/query/methods/select.py`.

   The embedding below translates the data model and operations of that file
   into executable Lean definitions.  External collaborators (the database
   executor, the table-metadata registry, the clause delegates in
   `piccolo/query/mixins.py`, the JSON codec in `piccolo/utils/encoding.py`
   and `make_nested` in `piccolo/utils/dictionary.py`) are not part of the
   sources; where a definition has to stand in for one of them it is marked
   `Modelled from the spec:` in its doc comment. -/

set_option maxHeartbeats 1000000
set_option linter.unusedVariables false

section ListUtil

variable {α : Type} [DecidableEq α]

/-- First-seen de-duplication: keep the first occurrence of every element,
in order of first appearance.  This is the specification-side reading of
"duplicate fragments collapse to a single occurrence with first-seen order
preserved". -/
def dedupF : List α → List α
  | [] => []
  | x :: xs => x :: (dedupF xs).filter (fun y => y ≠ x)

/-- Translation of `list(OrderedDict.fromkeys(joins))` (select.py line 751 and
lines 778-780): fold the list into ordered dictionary keys, inserting each
element the first time it is seen. -/
def fromKeys (l : List α) : List α :=
  l.foldl (fun acc x => if x ∈ acc then acc else acc ++ [x]) []

end ListUtil

/-- One link of a call chain: a foreign-key column, with the metadata read by
`Select._get_joins` (select.py lines 712-748).  `tablename` is
`_key._meta.table._meta.tablename`, `name` is `_key._meta.name`,
`tableFormattedName` is `key._meta.table._meta.get_formatted_tablename()`,
`refFormattedTablename` is
`key._foreign_key_meta.resolved_references._meta.get_formatted_tablename()`
and `targetPkName` is
`key._foreign_key_meta.resolved_target_column._meta.name`. -/
structure FK where
  tablename : String
  name : String
  tableFormattedName : String
  refFormattedTablename : String
  targetPkName : String
  deriving DecidableEq, Repr

/-- Default foreign-key link, used only as the junk value of `List.getD`. -/
def dFK : FK := ⟨"", "", "", "", ""⟩

/-- `f"{_key._meta.table._meta.tablename}${_key._meta.name}"`
(select.py line 719). -/
def aliasPart (k : FK) : String := k.tablename ++ "$" ++ k.name

/-- The table alias of a call-chain prefix: the links' `tablename$keyname`
strings joined by `$` (select.py lines 718-721). -/
def aliasOf (pre : List FK) : String := String.intercalate "$" (pre.map aliasPart)

/-- The LEFT JOIN fragment string built at select.py lines 742-746:
`LEFT JOIN {right} "{alias}" ON ({left}."{key name}" = "{alias}"."{pk}")`. -/
def mkJoin (right al left keyName pkName : String) : String :=
  "LEFT JOIN " ++ right ++ " \"" ++ al ++ "\" ON (" ++ left ++ ".\"" ++
    keyName ++ "\" = \"" ++ al ++ "\".\"" ++ pkName ++ "\")"

/-- The loop over `enumerate(column._meta.call_chain)` in `Select._get_joins`
(select.py lines 717-746).  `chain` is the full call chain, `idx` the loop
index and `rest` the links still to process (`rest = chain.drop idx`).
The source stores each step's alias into the mutable field
`key._meta.table_alias` and the next step reads
`column._meta.call_chain[index - 1]._meta.table_alias`; since the read always
sees the value written one iteration earlier, the mutation is embedded as the
explicitly passed `prevAlias`. -/
def columnJoinsGo (chain : List FK) : Nat → String → List FK → List String
  | _, _, [] => []
  | idx, prevAlias, k :: rest =>
    let tableAlias := aliasOf (chain.take (idx + 1))
    let leftTablename := if idx = 0 then k.tableFormattedName else prevAlias
    mkJoin k.refFormattedTablename tableAlias leftTablename k.name k.targetPkName ::
      columnJoinsGo chain (idx + 1) tableAlias rest

/-- The `_joins` list produced for one column by `Select._get_joins`
(select.py lines 716-748). -/
def columnJoins (chain : List FK) : List String := columnJoinsGo chain 0 "" chain

/-- Specification-side description of the join fragment emitted at step `i`
of a call chain: the alias is the alias of the prefix `chain[0..i]`, and the
left-hand table reference is the alias of the prefix `chain[0..i-1]`, or
`root` (the root table's formatted name) when `i = 0`. -/
def joinSpecAt (chain : List FK) (root : String) (i : Nat) : String :=
  mkJoin (chain.getD i dFK).refFormattedTablename
    (aliasOf (chain.take (i + 1)))
    (if i = 0 then root else aliasOf (chain.take i))
    (chain.getD i dFK).name
    (chain.getD i dFK).targetPkName

/-- Python value types that matter to `is_numeric_column`
(select.py lines 42-43). -/
inductive PyType where
  | int
  | float
  | decimal
  | str
  | bool
  | other
  deriving DecidableEq, Repr

/-- A `Column` reference, with the metadata the selected claims read:
its call chain (foreign keys traversed from the root table), its name, its
`value_type`, whether it is a secret column, whether it is a `Timestamptz`
column (and its declared timezone and response alias), and its rendered
`get_select_string` output.  The rendering itself lives in
`piccolo/columns` and is carried as the opaque field `selectStr`. -/
structure Col where
  name : String
  callChain : List FK := []
  valueType : PyType := PyType.other
  secret : Bool := false
  isTimestamptz : Bool := false
  tz : String := "UTC"
  aliasName : String := ""
  selectStr : String := ""
  deriving DecidableEq, Repr

/-- A `Selectable` in the selected-columns list: a plain `Column`, a
`Readable` (a composite expression carrying its constituent columns), or a
non-`Column` selectable such as an aggregate or `SelectRaw` (skipped by the
join walk).  `M2MSelect` markers are modelled separately for
`_splice_m2m_rows`; the query states below cover selections without them. -/
inductive Sel where
  | col (c : Col)
  | readable (cols : List Col) (selectStr : String)
  | agg (selectStr : String)
  deriving DecidableEq, Repr

/-- The rendered `get_select_string` of a selectable (select.py
lines 795-798 call this on every selected column). -/
def selString : Sel → String
  | Sel.col c => c.selectStr
  | Sel.readable _ s => s
  | Sel.agg s => s

/-- Expansion of readables in `Select._get_joins` (select.py lines 704-710):
the iterated list is the original items (non-`Column` entries are skipped by
the `isinstance` test at line 713) followed by every readable's constituent
columns, in order. -/
def expandedColumns (cols : List Sel) : List Col :=
  cols.filterMap (fun s => match s with | Sel.col c => some c | _ => none) ++
    (cols.filterMap (fun s => match s with | Sel.readable rs _ => some rs | _ => none)).flatten

/-- The `joins` accumulator of `Select._get_joins` just before `Remove
duplicates` (select.py lines 702-748): per-column fragments concatenated in
column order. -/
def collectJoins (cols : List Sel) : List String :=
  (expandedColumns cols).flatMap (fun c => columnJoins c.callChain)

/-- `Select._get_joins` (select.py lines 697-751): collect the fragments,
then `list(OrderedDict.fromkeys(joins))`. -/
def get_joins (cols : List Sel) : List String := fromKeys (collectJoins cols)

/-- The three supported dialects, as reported by the engine. -/
inductive Engine where
  | sqlite
  | postgres
  | cockroach
  deriving DecidableEq, Repr

/-- The state of a `Select` query object read by `default_querystrings` and
`response_handler`: the table metadata (`self.table._meta`), and the clause
delegates' accumulators.  The delegates themselves live in
`piccolo/query/mixins.py`; they are plain holders of the values shown here
(`_limit`/`_offset` are `None` until `limit()`/`offset()` is called, hence
the `Option`).  DISTINCT and AS OF state beyond their presence flags is not
needed by the claims and is not modelled. -/
structure SelectState where
  tableColumns : List Col
  tableFormattedName : String
  engineType : Engine
  excludeSecrets : Bool
  selectedColumns : List Sel
  whereColumns : List Sel
  orderByColumns : List Sel
  hasWhere : Bool := false
  hasGroupBy : Bool := false
  hasOrderBy : Bool := false
  hasAsOf : Bool := false
  limit : Option Nat := none
  offset : Option Nat := none
  outputNested : Bool := false

/-- Error message raised at select.py lines 760-763. -/
def complexMsg : String :=
  "Joining more than 10 tables isn\x27t supported - please restructure your query."

/-- Error message raised at select.py lines 839-842. -/
def limitMsg : String :=
  "A limit clause must be provided when doing an offset with SQLite."

/-- `Select._check_valid_call_chain` (select.py lines 753-764): walk the
given selectables and raise as soon as one is a `Column` whose call chain is
non-empty and longer than 10. -/
def check_valid_call_chain : List Sel → Except String Unit
  | [] => Except.ok ()
  | s :: rest =>
    match s with
    | Sel.col c =>
      if c.callChain ≠ [] ∧ c.callChain.length > 10 then Except.error complexMsg
      else check_valid_call_chain rest
    | _ => check_valid_call_chain rest

/-- Modelled from the spec: `ColumnsDelegate.remove_secret_columns`
(piccolo/query/mixins.py, not in src/) — "If secret fields need to be
omitted, remove them from the list". -/
def remove_secret_columns (sels : List Sel) : List Sel :=
  sels.filter (fun s => match s with | Sel.col c => !c.secret | _ => true)

/-- The combined join list of `Select.default_querystrings` (select.py
lines 771-780): joins of the selected columns, then of the WHERE columns,
then of the ORDER BY columns, with `OrderedDict.fromkeys` applied to the
concatenation. -/
def combinedJoins (st : SelectState) : List String :=
  fromKeys (get_joins st.selectedColumns ++ get_joins st.whereColumns ++
    get_joins st.orderByColumns)

/-- `Select.default_querystrings` (select.py lines 766-854).  Returns the
built query text (clause querystrings contribute the placeholder `\x7b\x7d`
exactly as the Python string concatenation does) together with the query
object's state after the call — the state is returned in both outcomes
because the Python method mutates `self.columns_delegate` at lines 786-791
before the SQLite limit/offset check can raise. -/
def default_querystrings (st : SelectState) :
    Except String String × SelectState :=
  match check_valid_call_chain st.selectedColumns with
  | Except.error e => (Except.error e, st)
  | Except.ok _ =>
    let joins := combinedJoins st
    let sel1 := if st.selectedColumns.length = 0 then st.tableColumns.map Sel.col
                else st.selectedColumns
    let sel2 := if st.excludeSecrets then remove_secret_columns sel1 else sel1
    let st' := { st with selectedColumns := sel2 }
    let columnsStr := String.intercalate ", " (sel2.map selString)
    let q1 := "SELECT" ++ "\x7b\x7d" ++ " " ++ columnsStr ++ " FROM " ++
      st.tableFormattedName
    let q2 := joins.foldl (fun q j => q ++ " " ++ j) q1
    let q3 := q2 ++ (if st.hasAsOf then "\x7b\x7d" else "") ++
      (if st.hasWhere then " WHERE \x7b\x7d" else "") ++
      (if st.hasGroupBy then "\x7b\x7d" else "") ++
      (if st.hasOrderBy then "\x7b\x7d" else "")
    if st.engineType = Engine.sqlite ∧ st.offset.isSome ∧ st.limit.isNone then
      (Except.error limitMsg, st')
    else
      let q4 := q3 ++ (if st.limit.isSome then "\x7b\x7d" else "") ++
        (if st.offset.isSome then "\x7b\x7d" else "")
      (Except.ok q4, st')

/-- A value in a response row: Python `None`, numbers, strings, naive or
aware datetimes (the payload of a datetime is irrelevant to the claims, only
its `tzinfo`), lists and dictionaries. -/
inductive Val where
  | vnull
  | vint (i : Int)
  | vstr (s : String)
  | vdt (tzinfo : Option String)
  | vlist (vs : List Val)
  | vobj (fields : List (String × Val))

mutual

/-- Structural equality of values (Python `==` on response data). -/
def Val.beq : Val → Val → Bool
  | Val.vnull, Val.vnull => true
  | Val.vint a, Val.vint b => a == b
  | Val.vstr a, Val.vstr b => a == b
  | Val.vdt a, Val.vdt b => a == b
  | Val.vlist a, Val.vlist b => Val.beqList a b
  | Val.vobj a, Val.vobj b => Val.beqObj a b
  | _, _ => false

/-- Pointwise equality of value lists. -/
def Val.beqList : List Val → List Val → Bool
  | [], [] => true
  | a :: xs, b :: ys => Val.beq a b && Val.beqList xs ys
  | _, _ => false

/-- Pointwise equality of field lists. -/
def Val.beqObj : List (String × Val) → List (String × Val) → Bool
  | [], [] => true
  | (k1, v1) :: xs, (k2, v2) :: ys => k1 == k2 && Val.beq v1 v2 && Val.beqObj xs ys
  | _, _ => false

end

instance : BEq Val := ⟨Val.beq⟩

/-- A response row: an insertion-ordered dictionary from column names to
values, as returned by the executor. -/
abbrev Row := List (String × Val)

/-- `row[key]` with Python `dict.get` semantics on a missing key
(`None`, i.e. `vnull`). -/
def rowGet (r : Row) (k : String) : Val := (List.lookup k r).getD Val.vnull

/-- `row[key] = v`: replace the entry if the key is present (dictionaries
keep the original insertion position), otherwise append it. -/
def rowSet (r : Row) (k : String) (v : Val) : Row :=
  if r.any (fun kv => kv.fst == k) then
    r.map (fun kv => if kv.fst == k then (kv.fst, v) else kv)
  else r ++ [(k, v)]

/-- View a value as the identifier list stored under a many-to-many key. -/
def valIds : Val → List Val
  | Val.vlist vs => vs
  | _ => []

/-- Python `dict(...)` built from a comprehension followed by `.get`:
later entries override earlier ones, and a missing key gives `none`. -/
def dictGet (m : List (Val × Val)) (k : Val) : Option Val := List.lookup k m.reverse

/-- The `extra_rows_map` of `Select._splice_m2m_rows` (select.py
lines 461-474): keyed by each secondary row's `mapping_key`; the value is
the single requested column when `as_list` is set, otherwise the row without
its `mapping_key` entry. -/
def extraRowsMap (asList : Bool) (colName : String) (extraRows : List Row) :
    List (Val × Val) :=
  if asList then
    extraRows.map (fun r => (rowGet r "mapping_key", rowGet r colName))
  else
    extraRows.map (fun r =>
      (rowGet r "mapping_key", Val.vobj (r.filter (fun kv => kv.fst ≠ "mapping_key"))))

/-- The per-row replacement of `Select._splice_m2m_rows` (select.py
line 476): `row[m2m_name] = [extra_rows_map.get(i) for i in row[m2m_name]]`,
a missing identifier giving Python `None`. -/
def spliceRow (m : List (Val × Val)) (m2mName : String) (row : Row) : Row :=
  rowSet row m2mName
    (Val.vlist ((valIds (rowGet row m2mName)).map
      (fun i => (dictGet m i).getD Val.vnull)))

/-- `Select._splice_m2m_rows` (select.py lines 436-477).  The auxiliary
query against the secondary table is an external execution; its result list
is the `extraRows` argument (the source issues it only when `row_ids` is
non-empty, and an empty result list is also what it returns then). -/
def splice_m2m_rows (asList : Bool) (colName m2mName : String)
    (extraRows : List Row) (response : List Row) : List Row :=
  response.map (spliceRow (extraRowsMap asList colName extraRows) m2mName)

/-- Split a column alias on `.`, for nested-output reconstruction. -/
def splitAux : List Char → List Char → List (List Char)
  | [], cur => [cur.reverse]
  | c :: cs, cur =>
    if c = '.' then cur.reverse :: splitAux cs [] else splitAux cs (c :: cur)

/-- `key.split(".")` over the characters of a string. -/
def splitKey (s : String) : List String :=
  (splitAux s.toList []).map (fun l => String.mk l)

/-- Insert a value at a `.`-separated key path, creating the intermediate
dictionaries. -/
def insertPath : Row → List String → Val → Row
  | fields, [], _ => fields
  | fields, [k], v => rowSet fields k v
  | fields, k :: k2 :: rest, v =>
    match List.lookup k fields with
    | some (Val.vobj o) => rowSet fields k (Val.vobj (insertPath o (k2 :: rest) v))
    | _ => rowSet fields k (Val.vobj (insertPath [] (k2 :: rest) v))

/-- Modelled from the spec: `make_nested` (piccolo/utils/dictionary.py, not
in src/) — "transform each row's flat dotted/aliased keys into a nested
structure mirroring the join call chains". -/
def make_nested (row : Row) : Row :=
  row.foldl (fun acc kv => insertPath acc (splitKey kv.fst) kv.snd) []

/-- The per-row timezone fix of `Select.response_handler` (select.py
lines 596-604): when the value under the column's alias is a timezone-naive
datetime, attach the column's declared timezone. -/
def applyTzRow (c : Col) (row : Row) : Row :=
  match List.lookup c.aliasName row with
  | some (Val.vdt none) => rowSet row c.aliasName (Val.vdt (some c.tz))
  | _ => row

/-- The per-column timezone pass (select.py lines 592-604): UTC-zoned
columns are skipped. -/
def applyTz (c : Col) (resp : List Row) : List Row :=
  if c.tz = "UTC" then resp else resp.map (applyTzRow c)

/-- `Select.response_handler` (select.py lines 479-615) for selections
without many-to-many markers (the `m2m_selects` list at lines 480-484 is
then empty and the first stage does nothing): the `Timestamptz` pass over
`selected_columns or self.table.all_columns()` (lines 583-604), then the
nesting stage (lines 608-615), which applies `make_nested` exactly when
nested output is enabled and the selected-columns list is non-empty. -/
def response_handler (st : SelectState) (response : List Row) : List Row :=
  let selCols := if st.selectedColumns.isEmpty then st.tableColumns.map Sel.col
                 else st.selectedColumns
  let tzCols := selCols.filterMap (fun s =>
    match s with
    | Sel.col c => if c.isTimestamptz then some c else none
    | _ => none)
  let response2 := tzCols.foldl (fun resp c => applyTz c resp) response
  if st.outputNested = true ∧ st.selectedColumns.length ≠ 0 then
    response2.map make_nested
  else response2

/-- Modelled from the spec: the data flow of one execution (`Query.run` in
piccolo/query/base.py, not in src/) — "assembler reads all delegate states →
produces (SQL text, parameter list) → external executor runs it → raw rows
flow into the response shaper".  The assembly (and its mutation of the query
state) therefore happens before `response_handler` sees the rows; the
executor's raw rows are the `executorRows` argument. -/
def runPipeline (st : SelectState) (executorRows : List Row) :
    Except String (List Row) :=
  match default_querystrings st with
  | (Except.error e, _) => Except.error e
  | (Except.ok _, st') => Except.ok (response_handler st' executorRows)

/-- Modelled from the spec: `CallbackDelegate.invoke`
(piccolo/query/mixins.py, not in src/) — the registered success-path
transformers are applied to the result in order. -/
def invokeCallbacks {A : Type} (cbs : List (A → A)) (x : A) : A :=
  cbs.foldl (fun a f => f a) x

/-- `Select.run` (select.py lines 856-869): the executed-and-shaped rows
(`results`, an external execution) get the success callbacks applied unless
`use_callbacks` is false. -/
def select_run (useCallbacks : Bool) (cbs : List (List Row → List Row))
    (results : List Row) : List Row :=
  if useCallbacks then invokeCallbacks cbs results else results

/-- `SelectJSON.run` (select.py lines 339-350): run the underlying query —
with `use_callbacks` left at its default of `True` — and serialise the rows
with the JSON codec `dump` (piccolo/utils/encoding.py, external). -/
def selectJSON_run (dump : List Row → String) (cbs : List (List Row → List Row))
    (results : List Row) : String :=
  dump (select_run true cbs results)

/-- `SelectList.run` (select.py lines 311-336): run the underlying query
with `use_callbacks=False`; an empty response gives `[]`, a first row with a
key count other than one raises `ValueError`, and otherwise every row's
values are chained into one list; the callbacks are applied to the final
sequence. -/
def selectList_run (cbs : List (List Val → List Val)) (rows : List Row) :
    Except String (List Val) :=
  if rows.length = 0 then Except.ok (invokeCallbacks cbs [])
  else if (rows.headD []).length ≠ 1 then
    Except.error "Each row returned more than one value"
  else Except.ok (invokeCallbacks cbs (rows.flatMap (fun r => r.map Prod.snd)))

/-- `is_numeric_column` (select.py lines 42-43):
`column.value_type in (int, decimal.Decimal, float)`. -/
def is_numeric_column (c : Col) : Bool :=
  c.valueType = PyType.int ∨ c.valueType = PyType.decimal ∨ c.valueType = PyType.float

/-- Error message of `Avg.__init__` / `Sum.__init__` (select.py
lines 92 and 274). -/
def numericMsg : String := "Column type must be numeric to run the query."

/-- `Avg.__init__` (select.py lines 88-93): store the column when numeric,
raise `ValueError` otherwise. -/
def mkAvg (c : Col) (al : String) : Except String (Col × String) :=
  if is_numeric_column c then Except.ok (c, al) else Except.error numericMsg

/-- `Sum.__init__` (select.py lines 270-275). -/
def mkSum (c : Col) (al : String) : Except String (Col × String) :=
  if is_numeric_column c then Except.ok (c, al) else Except.error numericMsg

/-- `Count.__init__` (select.py lines 122-153): raises only when both a
truthy `distinct` sequence and a `column` are given. -/
def mkCount (column : Option Col) (distinct : Option (List Col)) (al : String) :
    Except String (Option Col × Option (List Col) × String) :=
  if (match distinct with | some l => !l.isEmpty | none => false) && column.isSome then
    Except.error "Only specify `column` or `distinct`"
  else Except.ok (column, distinct, al)

/-- `Min.__init__` (select.py lines 206-208): never raises. -/
def mkMin (c : Col) (al : String) : Except String (Col × String) := Except.ok (c, al)

/-- `Max.__init__` (select.py lines 184-214): never raises. -/
def mkMax (c : Col) (al : String) : Except String (Col × String) := Except.ok (c, al)

/-- Whether an `Except` computation succeeded. -/
def exceptOk {E A : Type} : Except E A → Bool
  | Except.ok _ => true
  | Except.error _ => false

/- Concrete data used by the witnesses and counterexamples below. -/

/-- A foreign key `Band.manager` living on table `band`. -/
def fkManager : FK :=
  { tablename := "band", name := "manager", tableFormattedName := "\"band\"",
    refFormattedTablename := "\"manager\"", targetPkName := "id" }

/-- A foreign key `Manager.country` living on table `manager`. -/
def fkCountry : FK :=
  { tablename := "manager", name := "country", tableFormattedName := "\"manager\"",
    refFormattedTablename := "\"country\"", targetPkName := "id" }

/-- A column reached through a call chain of 11 links. -/
def colDeep : Col := { name := "name", callChain := List.replicate 11 fkManager }

/-- A plain column of the root table. -/
def colId : Col := { name := "id", selectStr := "\"band\".\"id\"" }

/-- A secret column of the root table. -/
def colPwd : Col := { name := "pwd", secret := true, selectStr := "\"band\".\"pwd\"" }

/-- A query whose WHERE clause references `colDeep` (11 joins) while nothing
deep is selected. -/
def stWhereDeep : SelectState :=
  { tableColumns := [colId], tableFormattedName := "\"band\"",
    engineType := Engine.postgres, excludeSecrets := false,
    selectedColumns := [], whereColumns := [Sel.col colDeep],
    orderByColumns := [], hasWhere := true }

/-- A query that selects `colDeep` (11 joins). -/
def stSelDeep : SelectState :=
  { tableColumns := [colId], tableFormattedName := "\"band\"",
    engineType := Engine.postgres, excludeSecrets := false,
    selectedColumns := [Sel.col colDeep], whereColumns := [],
    orderByColumns := [] }

/-- A pure select-all query with nested output enabled. -/
def stNestedStar : SelectState :=
  { tableColumns := [colId], tableFormattedName := "\"band\"",
    engineType := Engine.postgres, excludeSecrets := false,
    selectedColumns := [], whereColumns := [], orderByColumns := [],
    outputNested := true }

/-- A SQLite query with no selection and no clauses; offset and limit are
filled in by the OFFSET/LIMIT theorems. -/
def stSqlite : SelectState :=
  { tableColumns := [colId], tableFormattedName := "\"band\"",
    engineType := Engine.sqlite, excludeSecrets := false,
    selectedColumns := [Sel.col colId], whereColumns := [],
    orderByColumns := [] }

/-- A select-all query over a table with one secret and one plain column,
with secret exclusion requested. -/
def stSecret : SelectState :=
  { tableColumns := [colId, colPwd], tableFormattedName := "\"band\"",
    engineType := Engine.postgres, excludeSecrets := true,
    selectedColumns := [], whereColumns := [], orderByColumns := [] }

/-- A response row whose many-to-many key holds two identifiers. -/
def rowM2M : Row := [("name", Val.vstr "Pythonistas"), ("genres", Val.vlist [Val.vint 1, Val.vint 2])]

/-- The auxiliary-query result for `rowM2M`: only identifier 1 has a
matching secondary row. -/
def extraRowsM2M : List Row := [[("label", Val.vstr "rock"), ("mapping_key", Val.vint 1)]]

/-- A JSON dump that records only the number of rows (enough to observe
whether the callbacks ran before serialisation). -/
def dumpLen : List Row → String := fun rows => toString rows.length

/-- A success callback that replaces the result with the empty list. -/
def cbDrop : List Row → List Row := fun _ => []

/-- A one-row response. -/
def rowsOne : List Row := [[("a", Val.vint 1)]]

/-- A response whose first row has one key but whose second row has two. -/
def rowsTwoKeys : List Row :=
  [[("a", Val.vint 1)], [("a", Val.vint 2), ("b", Val.vint 3)]]

/-- A trivial JSON codec pair that round-trips on the empty row list. -/
def dumpEmpty : List Row → String := fun _ => ""

/-- See `dumpEmpty`. -/
def loadEmpty : String → List Row := fun _ => []

section DedupLemmas

variable {α : Type} [DecidableEq α]

theorem mem_dedupF {a : α} : ∀ {l : List α}, a ∈ dedupF l ↔ a ∈ l := by
  intro l
  induction l with
  | nil => simp [dedupF]
  | cons x xs ih =>
    by_cases hax : a = x <;> simp [dedupF, List.mem_filter, ih, hax]

theorem nodup_dedupF : ∀ (l : List α), (dedupF l).Nodup := by
  intro l
  induction l with
  | nil => simp [dedupF]
  | cons x xs ih =>
    rw [dedupF, List.nodup_cons]
    constructor
    · simp [List.mem_filter]
    · exact ih.filter _

theorem dedupF_sublist : ∀ (l : List α), List.Sublist (dedupF l) l := by
  intro l
  induction l with
  | nil => simp [dedupF]
  | cons x xs ih =>
    rw [dedupF]
    exact ((List.filter_sublist _).trans ih).cons₂ x

theorem dedupF_eq_self_of_nodup : ∀ {l : List α}, l.Nodup → dedupF l = l := by
  intro l
  induction l with
  | nil => simp [dedupF]
  | cons x xs ih =>
    intro h
    rw [List.nodup_cons] at h
    rw [dedupF, ih h.2, List.filter_eq_self.mpr]
    intro y hy
    simp only [decide_eq_true_eq]
    exact fun hyx => h.1 (hyx ▸ hy)

theorem dedupF_idem (l : List α) : dedupF (dedupF l) = dedupF l :=
  dedupF_eq_self_of_nodup (nodup_dedupF l)

omit [DecidableEq α] in
theorem filter_swap (p q : α → Bool) (l : List α) :
    (l.filter q).filter p = (l.filter p).filter q := by
  rw [List.filter_filter, List.filter_filter]
  exact List.filter_congr (fun a _ => Bool.and_comm _ _)

theorem filter_dedupF (p : α → Bool) : ∀ (l : List α),
    (dedupF l).filter p = dedupF (l.filter p) := by
  intro l
  induction l with
  | nil => simp [dedupF]
  | cons x xs ih =>
    by_cases hp : p x
    · rw [dedupF, List.filter_cons_of_pos hp, filter_swap, ih,
        List.filter_cons_of_pos hp, dedupF]
    · rw [dedupF, List.filter_cons_of_neg (by simpa using hp), filter_swap, ih,
        List.filter_cons_of_neg (by simpa using hp), List.filter_eq_self.mpr]
      intro y hy
      simp only [decide_eq_true_eq]
      rintro rfl
      rw [mem_dedupF, List.mem_filter] at hy
      exact hp hy.2

theorem dedupF_append : ∀ (a b : List α),
    dedupF (a ++ b) = dedupF a ++ (dedupF b).filter (fun y => y ∉ a) := by
  intro a
  induction a with
  | nil =>
    intro b
    simp [dedupF]
  | cons x xs ih =>
    intro b
    have heq : ((dedupF b).filter (fun y => decide (y ∉ xs))).filter
          (fun y => decide (y ≠ x))
        = (dedupF b).filter (fun y => decide (y ∉ x :: xs)) := by
      rw [List.filter_filter]
      exact List.filter_congr (by
        intro y _
        by_cases hyx : y = x <;> by_cases hm : y ∈ xs <;> simp [hyx, hm])
    rw [List.cons_append, dedupF, ih, List.filter_append, dedupF, heq,
      List.cons_append]

theorem dedupF_three (a b c : List α) :
    dedupF (dedupF a ++ dedupF b ++ dedupF c) = dedupF (a ++ b ++ c) := by
  rw [dedupF_append (dedupF a ++ dedupF b) (dedupF c),
    dedupF_append (dedupF a) (dedupF b),
    dedupF_append (a ++ b) c, dedupF_append a b,
    dedupF_idem, dedupF_idem, dedupF_idem]
  congr 1
  · congr 1
    exact List.filter_congr (by intro y _; simp [mem_dedupF])
  · exact List.filter_congr (by intro y _; simp [mem_dedupF])

theorem foldl_fromKeys : ∀ (l acc : List α),
    l.foldl (fun acc x => if x ∈ acc then acc else acc ++ [x]) acc
      = acc ++ dedupF (l.filter (fun y => y ∉ acc)) := by
  intro l
  induction l with
  | nil =>
    intro acc
    simp [dedupF]
  | cons x xs ih =>
    intro acc
    rw [List.foldl_cons]
    by_cases hx : x ∈ acc
    · rw [if_pos hx, ih, List.filter_cons_of_neg (by simpa using hx)]
    · have heq : List.filter (fun y => decide (y ∉ acc ++ [x])) xs
          = List.filter (fun a => decide (a ≠ x) && decide (a ∉ acc)) xs :=
        List.filter_congr (by
          intro y _
          by_cases hyx : y = x <;> by_cases hm : y ∈ acc <;> simp [hyx, hm])
      rw [if_neg hx, ih, List.filter_cons_of_pos (by simpa using hx), dedupF,
        filter_dedupF, List.filter_filter, List.append_assoc,
        List.singleton_append, heq]

theorem fromKeys_eq_dedupF (l : List α) : fromKeys l = dedupF l := by
  rw [fromKeys, foldl_fromKeys]
  simp

end DedupLemmas

theorem getD_of_drop {α : Type} (d : α) :
    ∀ (l : List α) (i : Nat) (x : α) (xs : List α),
      l.drop i = x :: xs → l.getD i d = x := by
  intro l
  induction l with
  | nil => intro i x xs h; simp at h
  | cons y ys ih =>
    intro i x xs h
    cases i with
    | zero => simp at h; simp [h.1]
    | succ n =>
      rw [List.drop_succ_cons] at h
      simpa using ih n x xs h

theorem columnJoinsGo_spec (chain : List FK) :
    ∀ (rest : List FK) (idx : Nat) (prev : String),
      chain.drop idx = rest →
      (0 < idx → prev = aliasOf (chain.take idx)) →
      columnJoinsGo chain idx prev rest
        = (List.range' idx rest.length).map
            (joinSpecAt chain ((chain.headD dFK).tableFormattedName)) := by
  intro rest
  induction rest with
  | nil => intro idx prev _ _; simp [columnJoinsGo]
  | cons k rest' ih =>
    intro idx prev hdrop hprev
    have hk : chain.getD idx dFK = k := getD_of_drop dFK chain idx k rest' hdrop
    have hdrop' : chain.drop (idx + 1) = rest' := by
      have h1 := congrArg (List.drop 1) hdrop
      rw [List.drop_drop] at h1
      simpa [Nat.add_comm] using h1
    have htail := ih (idx + 1) (aliasOf (chain.take (idx + 1))) hdrop' (fun _ => rfl)
    rw [columnJoinsGo, htail, List.length_cons, List.range'_succ, List.map_cons]
    congr 1
    rw [joinSpecAt, hk]
    cases Nat.eq_zero_or_pos idx with
    | inl h0 =>
      subst h0
      simp only [List.drop_zero] at hdrop
      rw [hdrop]
      simp
    | inr hpos =>
      rw [if_neg (Nat.pos_iff_ne_zero.mp hpos), if_neg (Nat.pos_iff_ne_zero.mp hpos),
        hprev hpos]

/-- C1: For every query, the derived LEFT JOIN fragments are collected from
the selected columns, then the WHERE-clause columns, then the ORDER BY
columns, concatenated in that order, and duplicate fragments collapse to a
single occurrence with first-seen order preserved: the combined join list of
`default_querystrings` equals the first-seen de-duplication of the raw
fragment concatenation, is duplicate-free, and is an order-preserving
sublist of that concatenation. -/
theorem c1_left_join_collection_order (st : SelectState) :
    combinedJoins st
      = dedupF (collectJoins st.selectedColumns ++ collectJoins st.whereColumns ++
          collectJoins st.orderByColumns)
    ∧ (combinedJoins st).Nodup
    ∧ List.Sublist (combinedJoins st)
        (collectJoins st.selectedColumns ++ collectJoins st.whereColumns ++
          collectJoins st.orderByColumns) := by
  have h : combinedJoins st
      = dedupF (collectJoins st.selectedColumns ++ collectJoins st.whereColumns ++
          collectJoins st.orderByColumns) := by
    rw [combinedJoins, get_joins, get_joins, get_joins]
    simp only [fromKeys_eq_dedupF]
    exact dedupF_three _ _ _
  refine ⟨h, ?_, ?_⟩
  · rw [h]; exact nodup_dedupF _
  · rw [h]; exact dedupF_sublist _

/-- C2: For every column with a non-empty call chain of depth at most 10,
the join derivation computes the alias of the prefix `chain[0..i]` as the
links' `tablename$keyname` strings joined by `$`, and uses as the left-hand
table reference at step `i` the alias of the prefix `chain[0..i-1]`, or the
root table's formatted name when `i = 0` (the root table being the table the
first link lives on). -/
theorem c2_join_alias_derivation (chain : List FK) (root : String)
    (h1 : chain ≠ []) (h2 : chain.length ≤ 10)
    (hroot : root = (chain.headD dFK).tableFormattedName) :
    columnJoins chain = (List.range chain.length).map (joinSpecAt chain root) := by
  subst hroot
  rw [columnJoins,
    columnJoinsGo_spec chain chain 0 "" (by simp) (by omega),
    List.range_eq_range']

/-- Witness for C2 on the two-link chain `Band.manager.country`. -/
theorem c2_join_alias_derivation_witness :
    ([fkManager, fkCountry] : List FK) ≠ [] ∧
    ([fkManager, fkCountry] : List FK).length ≤ 10 ∧
    columnJoins [fkManager, fkCountry]
      = (List.range ([fkManager, fkCountry] : List FK).length).map
          (joinSpecAt [fkManager, fkCountry] "\"band\"") :=
  ⟨by decide, by decide,
    c2_join_alias_derivation [fkManager, fkCountry] "\"band\"" (by decide) (by decide)
      (by decide)⟩

theorem check_valid_error {sels : List Sel} {c : Col}
    (hmem : Sel.col c ∈ sels) (hlen : 10 < c.callChain.length) :
    check_valid_call_chain sels = Except.error complexMsg := by
  induction sels with
  | nil => simp at hmem
  | cons s rest ih =>
    rcases List.mem_cons.mp hmem with heq | hmem'
    · subst heq
      have hne : c.callChain ≠ [] := by
        intro h
        rw [h] at hlen
        simp at hlen
      simp [check_valid_call_chain, hne, hlen]
    · cases s with
      | col cHead =>
        simp only [check_valid_call_chain]
        by_cases hc : cHead.callChain ≠ [] ∧ cHead.callChain.length > 10
        · rw [if_pos hc]
        · rw [if_neg hc]
          exact ih hmem'
      | readable rs str =>
        simp only [check_valid_call_chain]
        exact ih hmem'
      | agg str =>
        simp only [check_valid_call_chain]
        exact ih hmem'

/-- C3 (counterexample): the claim says a WHERE-clause column whose call
chain has 11 links makes the build raise the complexity error, but
`default_querystrings` only validates the selected columns — the query with
an 11-link WHERE column builds its SQL successfully. -/
theorem c3_where_chain_not_checked_cex :
    colDeep.callChain.length = 11
    ∧ Sel.col colDeep ∈ stWhereDeep.whereColumns
    ∧ exceptOk (default_querystrings stWhereDeep).1 = true :=
  ⟨by decide, by decide, by decide⟩

/-- C3 (amended): only the selected columns are validated: for every query
with a selected column whose call chain has more than 10 links (in
particular depth 11), building the query raises the complexity error before
any SQL text is produced, and the query state is left untouched; columns
that appear only in the WHERE or ORDER BY clause are not checked. -/
theorem c3_selected_chain_limit (st : SelectState) (c : Col)
    (hmem : Sel.col c ∈ st.selectedColumns) (hlen : 10 < c.callChain.length) :
    (default_querystrings st).1 = Except.error complexMsg
    ∧ (default_querystrings st).2 = st := by
  have h := check_valid_error hmem hlen
  constructor <;> simp [default_querystrings, h]

/-- Witness for the amended C3 on a query selecting an 11-link column. -/
theorem c3_selected_chain_limit_witness :
    Sel.col colDeep ∈ stSelDeep.selectedColumns
    ∧ 10 < colDeep.callChain.length
    ∧ (default_querystrings stSelDeep).1 = Except.error complexMsg :=
  ⟨by decide, by decide,
    (c3_selected_chain_limit stSelDeep colDeep (by decide) (by decide)).1⟩

theorem lookup_map_replace (k : String) (v : Val) :
    ∀ r : Row, r.any (fun kv => kv.fst == k) = true →
      List.lookup k (r.map (fun kv => if kv.fst == k then (kv.fst, v) else kv))
        = some v := by
  intro r
  induction r with
  | nil => intro h; simp at h
  | cons kv rest ih =>
    obtain ⟨k1, v1⟩ := kv
    intro hany
    rw [List.map_cons]
    by_cases h : k1 = k
    · subst h
      rw [if_pos (beq_self_eq_true k1)]
      simp [List.lookup]
    · have hb : (k1 == k) = false := by simpa using h
      have hky : (k == k1) = false := by
        simp only [beq_eq_false_iff_ne, ne_eq]
        exact fun he => h he.symm
      simp only [List.any_cons, hb, Bool.false_or] at hany
      rw [if_neg (by simp [hb])]
      simpa [List.lookup, hky] using ih hany

theorem lookup_append_missing (k : String) (v : Val) :
    ∀ r : Row, r.any (fun kv => kv.fst == k) = false →
      List.lookup k (r ++ [(k, v)]) = some v := by
  intro r
  induction r with
  | nil => intro _; simp [List.lookup]
  | cons kv rest ih =>
    obtain ⟨k1, v1⟩ := kv
    intro hany
    simp only [List.any_cons, Bool.or_eq_false_iff] at hany
    have hky : (k == k1) = false := by
      simp only [beq_eq_false_iff_ne, ne_eq]
      intro he
      rw [beq_eq_false_iff_ne, ne_eq] at hany
      exact hany.1 he.symm
    simpa [List.lookup, hky] using ih hany.2

theorem rowGet_rowSet (r : Row) (k : String) (v : Val) :
    rowGet (rowSet r k v) k = v := by
  rw [rowSet]
  by_cases h : r.any (fun kv => kv.fst == k) = true
  · rw [if_pos h, rowGet, lookup_map_replace k v r h]
    rfl
  · rw [if_neg h, rowGet,
      lookup_append_missing k v r (by simp only [Bool.not_eq_true] at h; exact h)]
    rfl

/-- C4: For every response row processed by `_splice_m2m_rows`, the
resulting per-row list has exactly the same length as that row's original
identifier list (including length zero), with identifiers that have no
matching secondary row mapped to the null placeholder rather than dropped:
the spliced row is in the output, its many-to-many value is the identifier
list mapped through the lookup (defaulting to null), the mapped list has the
original length, and at every position the entry is the lookup result of the
identifier at that position, null when the lookup misses. -/
theorem c4_m2m_splice_preserves_length (asList : Bool) (colName m2mName : String)
    (extraRows : List Row) (response : List Row) (row : Row) (ids : List Val)
    (hmem : row ∈ response) (hids : rowGet row m2mName = Val.vlist ids) :
    spliceRow (extraRowsMap asList colName extraRows) m2mName row
        ∈ splice_m2m_rows asList colName m2mName extraRows response
    ∧ rowGet (spliceRow (extraRowsMap asList colName extraRows) m2mName row) m2mName
        = Val.vlist (ids.map (fun i =>
            (dictGet (extraRowsMap asList colName extraRows) i).getD Val.vnull))
    ∧ (ids.map (fun i =>
        (dictGet (extraRowsMap asList colName extraRows) i).getD Val.vnull)).length
        = ids.length
    ∧ ∀ j, j < ids.length →
        (ids.map (fun i =>
            (dictGet (extraRowsMap asList colName extraRows) i).getD Val.vnull)).getD
            j Val.vnull
          = (dictGet (extraRowsMap asList colName extraRows)
              (ids.getD j Val.vnull)).getD Val.vnull := by
  refine ⟨?_, ?_, ?_, ?_⟩
  · rw [splice_m2m_rows]
    exact List.mem_map_of_mem _ hmem
  · rw [spliceRow, hids]
    simp only [valIds]
    rw [rowGet_rowSet]
  · simp
  · intro j hj
    have hj' : j < (ids.map (fun i =>
        (dictGet (extraRowsMap asList colName extraRows) i).getD Val.vnull)).length := by
      simpa using hj
    rw [List.getD_eq_getElem _ _ hj', List.getElem_map, List.getD_eq_getElem _ _ hj]

/-- Witness for C4: a row with identifiers `[1, 2]` where only `1` has a
matching secondary row — the spliced list keeps length 2, with `null` in the
second position. -/
theorem c4_m2m_splice_preserves_length_witness :
    rowM2M ∈ [rowM2M]
    ∧ rowGet rowM2M "genres" = Val.vlist [Val.vint 1, Val.vint 2]
    ∧ rowGet (spliceRow (extraRowsMap false "label" extraRowsM2M) "genres" rowM2M)
        "genres"
      = Val.vlist [Val.vobj [("label", Val.vstr "rock")], Val.vnull] := by
  refine ⟨by simp, rfl, ?_⟩
  have h := (c4_m2m_splice_preserves_length false "label" "genres" extraRowsM2M
    [rowM2M] rowM2M [Val.vint 1, Val.vint 2] (by simp) rfl).2.1
  rw [h]
  rfl

theorem dq_preserves (st : SelectState) :
    (default_querystrings st).2.tableColumns = st.tableColumns
    ∧ (default_querystrings st).2.engineType = st.engineType
    ∧ (default_querystrings st).2.excludeSecrets = st.excludeSecrets
    ∧ (default_querystrings st).2.outputNested = st.outputNested := by
  cases hc : check_valid_call_chain st.selectedColumns with
  | error e => simp [default_querystrings, hc]
  | ok u =>
    simp only [default_querystrings, hc]
    split <;> exact ⟨rfl, rfl, rfl, rfl⟩

theorem remove_secret_idem (sels : List Sel) :
    remove_secret_columns (remove_secret_columns sels) = remove_secret_columns sels := by
  rw [remove_secret_columns, remove_secret_columns, List.filter_filter]
  exact List.filter_congr (fun s _ => Bool.and_self _)

/-- C5 (counterexample): the claim exempts a pure select-all query from
nesting, but an executed query assembles its SQL first, and the assembly
replaces the empty selection with the table's column list — so the response
shaper of an executed select-all query with nested output does apply the
nesting transform, and a row with a dotted key is not returned flat. -/
theorem c5_select_star_nested_cex :
    stNestedStar.selectedColumns = []
    ∧ stNestedStar.outputNested = true
    ∧ runPipeline stNestedStar [[("a.b", Val.vint 1)]]
        = Except.ok [[("a", Val.vobj [("b", Val.vint 1)])]]
    ∧ [[("a", Val.vobj [("b", Val.vint 1)])]] ≠ ([[("a.b", Val.vint 1)]] : List Row) := by
  refine ⟨rfl, rfl, rfl, ?_⟩
  simp

/-- C5 (amended): the response shaper applies the nesting transform if and
only if nested output is enabled and the selected-columns state is non-empty
when the response is handled; since assembly replaces an empty selection
with the table's full column list, every executed query with nested output
and a non-empty post-assembly selection — including a pure select-all — has
`make_nested` applied to each row. -/
theorem c5_nested_applied_after_build (st : SelectState) (rows : List Row)
    (h1 : st.outputNested = true)
    (h2 : exceptOk (default_querystrings st).1 = true)
    (h3 : (default_querystrings st).2.selectedColumns ≠ [])
    (h4 : ∀ c, Sel.col c ∈ (default_querystrings st).2.selectedColumns →
      c.isTimestamptz = false) :
    runPipeline st rows = Except.ok (rows.map make_nested) := by
  have hnest : (default_querystrings st).2.outputNested = true :=
    (dq_preserves st).2.2.2.trans h1
  rcases hdq : default_querystrings st with ⟨res, st'⟩
  rw [hdq] at h2 h3 h4 hnest
  dsimp only at h2 h3 h4 hnest
  cases res with
  | error e => simp [exceptOk] at h2
  | ok q =>
    rw [runPipeline, hdq]
    have hne : st'.selectedColumns.isEmpty = false := by
      cases hsel : st'.selectedColumns with
      | nil => exact absurd hsel h3
      | cons a l => rfl
    have htz : st'.selectedColumns.filterMap (fun s =>
        match s with
        | Sel.col c => if c.isTimestamptz then some c else none
        | _ => none) = [] := by
      refine List.filterMap_eq_nil_iff.mpr ?_
      intro s hs
      cases s with
      | col c => simp [h4 c hs]
      | readable rs str => rfl
      | agg str => rfl
    have hlen : st'.selectedColumns.length ≠ 0 := by
      intro h0
      exact h3 (List.length_eq_zero.mp h0)
    simp [response_handler, hne, htz, hnest, hlen]

/-- Witness for the amended C5: the executed select-all query with nested
output applies `make_nested` to the response rows. -/
theorem c5_nested_applied_after_build_witness :
    stNestedStar.outputNested = true
    ∧ exceptOk (default_querystrings stNestedStar).1 = true
    ∧ (default_querystrings stNestedStar).2.selectedColumns ≠ []
    ∧ runPipeline stNestedStar rowsOne = Except.ok (rowsOne.map make_nested) := by
  refine ⟨rfl, by decide, by decide, ?_⟩
  refine c5_nested_applied_after_build stNestedStar rowsOne rfl (by decide) (by decide) ?_
  intro c hc
  have he : (default_querystrings stNestedStar).2.selectedColumns = [Sel.col colId] := by
    decide
  rw [he] at hc
  simp at hc
  subst hc
  rfl

/-- C6 (counterexample): the claim says the JSON-string view runs the
underlying query with the default success-callback pass disabled, but
`SelectJSON.run` calls `self.query.run(...)` without `use_callbacks=False`:
with a registered callback that empties the result, the serialised output
differs from the serialisation of the callback-free run. -/
theorem c6_json_view_callbacks_cex :
    selectJSON_run dumpLen [cbDrop] rowsOne
        ≠ dumpLen (select_run false [cbDrop] rowsOne)
    ∧ selectJSON_run dumpLen [cbDrop] rowsOne
        = dumpLen (select_run true [cbDrop] rowsOne) := by
  exact ⟨by decide, rfl⟩

/-- C6 (amended): the JSON-string view runs the underlying query with the
default success-callback pass enabled (`use_callbacks` keeps its default)
and serialises those rows, so whenever the JSON codec round-trips on that
value, decoding the JSON-string view's output yields exactly the
full-result run's output for the same query. -/
theorem c6_json_view_roundtrip (dump : List Row → String) (load : String → List Row)
    (cbs : List (List Row → List Row)) (results : List Row)
    (h : load (dump (invokeCallbacks cbs results)) = invokeCallbacks cbs results) :
    selectJSON_run dump cbs results = dump (select_run true cbs results)
    ∧ load (selectJSON_run dump cbs results) = select_run true cbs results := by
  constructor
  · rfl
  · simpa [selectJSON_run, select_run] using h

/-- Witness for the amended C6 with a codec that round-trips on the empty
row list. -/
theorem c6_json_view_roundtrip_witness :
    loadEmpty (dumpEmpty (invokeCallbacks [] ([] : List Row)))
        = invokeCallbacks [] ([] : List Row)
    ∧ loadEmpty (selectJSON_run dumpEmpty [] []) = select_run true [] [] :=
  ⟨rfl, (c6_json_view_roundtrip dumpEmpty loadEmpty [] [] rfl).2⟩

/-- C7 (counterexample): the claim says an error is raised when any result
row contains more than one key, but `SelectList.run` only checks
`rows[0]` — a response whose second row has two keys is flattened without
an error. -/
theorem c7_later_rows_not_checked_cex :
    ([("a", Val.vint 2), ("b", Val.vint 3)] : Row).length = 2
    ∧ ([("a", Val.vint 2), ("b", Val.vint 3)] : Row) ∈ rowsTwoKeys
    ∧ selectList_run [] rowsTwoKeys
        = Except.ok [Val.vint 1, Val.vint 2, Val.vint 3] := by
  refine ⟨rfl, List.mem_cons_of_mem _ (List.mem_cons_self _ _), rfl⟩

/-- C7 (amended): the flat-list view raises exactly when the first row's
key count differs from one (rows after the first are not checked and all
their values are included); zero matching rows give the empty list (not an
error); and when the first row has a single key the result is every row's
values chained in order, with the callbacks applied to the sequence. -/
theorem c7_flat_list_first_row_check (cbs : List (List Val → List Val))
    (rows : List Row) :
    (rows = [] → selectList_run cbs rows = Except.ok (invokeCallbacks cbs []))
    ∧ (∀ r rest, rows = r :: rest → r.length ≠ 1 →
        selectList_run cbs rows
          = Except.error "Each row returned more than one value")
    ∧ (∀ r rest, rows = r :: rest → r.length = 1 →
        selectList_run cbs rows
          = Except.ok (invokeCallbacks cbs
              (rows.flatMap (fun x => x.map Prod.snd)))) := by
  refine ⟨?_, ?_, ?_⟩
  · intro h
    subst h
    rfl
  · intro r rest h hlen
    subst h
    simp [selectList_run, hlen]
  · intro r rest h hlen
    subst h
    simp [selectList_run, hlen]

/-- Witness for the amended C7 on a single one-key row. -/
theorem c7_flat_list_first_row_check_witness :
    selectList_run [] [[("a", Val.vint 1)]] = Except.ok [Val.vint 1] := by
  have h := (c7_flat_list_first_row_check [] [[("a", Val.vint 1)]]).2.2
    [("a", Val.vint 1)] [] rfl rfl
  rw [h]
  rfl

theorem exceptOk_if (b : Bool) (x : Col × String) (e : String) :
    exceptOk (if b then Except.ok x else Except.error e) = b := by
  cases b <;> simp [exceptOk]

/-- C8: constructing `Sum` or `Avg` raises a `ValueError` at construction
time exactly when the operand's value type is not numeric (int, Decimal or
float), while `Count`, `Min` and `Max` accept any operand without
raising. -/
theorem c8_aggregate_operand_validation (c : Col) (al : String) :
    (exceptOk (mkAvg c al) = true
      ↔ (c.valueType = PyType.int ∨ c.valueType = PyType.decimal ∨
          c.valueType = PyType.float))
    ∧ (exceptOk (mkSum c al) = true
      ↔ (c.valueType = PyType.int ∨ c.valueType = PyType.decimal ∨
          c.valueType = PyType.float))
    ∧ exceptOk (mkCount (some c) none al) = true
    ∧ exceptOk (mkMin c al) = true
    ∧ exceptOk (mkMax c al) = true := by
  refine ⟨?_, ?_, rfl, rfl, rfl⟩
  · rw [mkAvg, exceptOk_if]
    simp [is_numeric_column]
  · rw [mkSum, exceptOk_if]
    simp [is_numeric_column]

/-- C9: on the SQLite dialect a query with an OFFSET clause set but no
LIMIT clause raises before anything is sent to the executor, and the same
query with a positive LIMIT builds successfully. -/
theorem c9_sqlite_offset_requires_limit (st : SelectState) (k n : Nat)
    (hchk : check_valid_call_chain st.selectedColumns = Except.ok ())
    (heng : st.engineType = Engine.sqlite) (hn : 0 < n) :
    (default_querystrings { st with offset := some k, limit := none }).1
        = Except.error limitMsg
    ∧ exceptOk (default_querystrings { st with offset := some k, limit := some n }).1
        = true := by
  constructor
  · simp [default_querystrings, hchk, heng]
  · simp [default_querystrings, hchk, heng, exceptOk]

/-- Witness for C9 on a concrete SQLite query. -/
theorem c9_sqlite_offset_requires_limit_witness :
    check_valid_call_chain stSqlite.selectedColumns = Except.ok ()
    ∧ stSqlite.engineType = Engine.sqlite
    ∧ (0 : Nat) < 1
    ∧ (default_querystrings { stSqlite with offset := some 0, limit := none }).1
        = Except.error limitMsg
    ∧ exceptOk (default_querystrings
        { stSqlite with offset := some 0, limit := some 1 }).1 = true := by
  have h := c9_sqlite_offset_requires_limit stSqlite 0 1 rfl rfl (by decide)
  exact ⟨rfl, rfl, by decide, h.1, h.2⟩

/-- C10: building the query string for a `Select` with no explicitly
selected columns mutates the query state: the selected-columns list becomes
the table's full column list (with secret columns removed when
`exclude_secrets` is set), it is then non-empty, and a rebuild leaves it
unchanged — later pipeline stages and rebuilds cannot distinguish the query
from one with explicit column selection. -/
theorem c10_select_star_mutation (st : SelectState)
    (h : st.selectedColumns = [])
    (hne : (if st.excludeSecrets then remove_secret_columns (st.tableColumns.map Sel.col)
            else st.tableColumns.map Sel.col) ≠ []) :
    (default_querystrings st).2.selectedColumns
        = (if st.excludeSecrets then remove_secret_columns (st.tableColumns.map Sel.col)
           else st.tableColumns.map Sel.col)
    ∧ (default_querystrings st).2.selectedColumns ≠ []
    ∧ (default_querystrings (default_querystrings st).2).2.selectedColumns
        = (default_querystrings st).2.selectedColumns := by
  have hchk : check_valid_call_chain st.selectedColumns = Except.ok () := by
    rw [h]
    rfl
  have h1 : (default_querystrings st).2.selectedColumns
      = (if st.excludeSecrets then remove_secret_columns (st.tableColumns.map Sel.col)
         else st.tableColumns.map Sel.col) := by
    simp only [default_querystrings, hchk]
    split <;> simp [h]
  refine ⟨h1, h1 ▸ hne, ?_⟩
  have hlen : (default_querystrings st).2.selectedColumns.length ≠ 0 := by
    intro h0
    exact (h1 ▸ hne) (List.length_eq_zero.mp h0)
  have hex : (default_querystrings st).2.excludeSecrets = st.excludeSecrets :=
    (dq_preserves st).2.2.1
  set st1 := (default_querystrings st).2 with hst1
  cases hchk2 : check_valid_call_chain st1.selectedColumns with
  | error e => simp [default_querystrings, hchk2]
  | ok u =>
    simp only [default_querystrings, hchk2]
    have hsel2 : (if st1.excludeSecrets = true
        then remove_secret_columns st1.selectedColumns
        else st1.selectedColumns) = st1.selectedColumns := by
      by_cases hexb : st1.excludeSecrets = true
      · have hst : st.excludeSecrets = true := by
          rw [← hex]
          exact hexb
        rw [if_pos hexb, h1, if_pos hst, remove_secret_idem]
      · rw [if_neg hexb]
    split <;> simp only [if_neg hlen, hsel2]

/-- Witness for C10 on a select-all query over a table with a secret
column and `exclude_secrets` set. -/
theorem c10_select_star_mutation_witness :
    stSecret.selectedColumns = []
    ∧ (if stSecret.excludeSecrets
        then remove_secret_columns (stSecret.tableColumns.map Sel.col)
        else stSecret.tableColumns.map Sel.col) ≠ []
    ∧ (default_querystrings stSecret).2.selectedColumns
        = (if stSecret.excludeSecrets
           then remove_secret_columns (stSecret.tableColumns.map Sel.col)
           else stSecret.tableColumns.map Sel.col) := by
  refine ⟨rfl, by decide, ?_⟩
  exact (c10_select_star_mutation stSecret rfl (by decide)).1
